import Mathlib

/-!
# Tic-Tac-Toe rules engine and game controller: a shallow embedding

This file embeds the game logic of `src/tic_tac_toe_frontend/src/App.js`:
the pure rules engine (`calculateWinner`, `computeAIMove`), the controller
handlers (`handleClick`, `handleRestart`, the mode-change reset) and the
status-recomputation effect, together with proofs of the specified
properties.

Cells hold `Option Mark` (`none` is the JS `null`). A board is the JS
array of nine cells; out-of-range reads yield `none`, matching JS
`undefined` being falsy in every test the code performs.
-/

/-- A player's symbol, the JS strings `"X"` and `"O"`. -/
inductive Mark where
  | X : Mark
  | O : Mark
deriving DecidableEq, Repr, Fintype

/-- A cell: `null` or a mark. -/
abbrev Cell := Option Mark

/-- The JS 9-element array of cells. -/
abbrev Board := List Cell

/-- The `winner` field of the object `calculateWinner` returns:
either a mark or the JS string `"tie"`. -/
inductive Winner where
  | mark (m : Mark) : Winner
  | tie : Winner
deriving DecidableEq, Repr

/-- The object `{ winner, line }` returned by `calculateWinner`. -/
structure WinResult where
  winner : Winner
  line : List Nat
deriving DecidableEq, Repr

/-- The 8 fixed triples scanned by `calculateWinner`
(3 rows, then 3 columns, then the 2 diagonals). -/
def winLines : List (Nat × Nat × Nat) :=
  [(0, 1, 2), (3, 4, 5), (6, 7, 8),
   (0, 3, 6), (1, 4, 7), (2, 5, 8),
   (0, 4, 8), (2, 4, 6)]

/-- JS `squares[i]`: reads a cell, `none` when out of range (JS `undefined`,
falsy exactly like `null` in every test the code performs). -/
def cellAt (b : Board) (i : Nat) : Cell := b.getD i none

/-- One iteration of the loop in `calculateWinner`: the test
`squares[a] && squares[a] === squares[b] && squares[a] === squares[c]`,
returning the `{ winner, line }` object on success. -/
def checkLine (b : Board) (l : Nat × Nat × Nat) : Option WinResult :=
  match cellAt b l.1 with
  | none => none
  | some m =>
      if cellAt b l.2.1 = some m ∧ cellAt b l.2.2 = some m then
        some ⟨Winner.mark m, [l.1, l.2.1, l.2.2]⟩
      else none

/-- `calculateWinner(squares)` from App.js lines 16-35: the first winning
triple in scan order, else `{winner:"tie", line:[]}` when every cell is
truthy, else `null`. -/
def calculateWinner (b : Board) : Option WinResult :=
  match winLines.findSome? (checkLine b) with
  | some r => some r
  | none =>
      if b.all (fun sq => sq.isSome) then some ⟨Winner.tie, []⟩
      else none

/-- JS `calculateWinner(board)?.winner` (optional chaining). -/
def winnerOf (b : Board) : Option Winner :=
  (calculateWinner b).map (fun r => r.winner)

/-- The body of the win/block loops of `computeAIMove`: cell `i` is empty
and writing `m` into a copy of the board makes `calculateWinner` report
`m` as the winner. -/
def winPred (b : Board) (m : Mark) (i : Nat) : Bool :=
  decide (cellAt b i = none ∧ winnerOf (b.set i (some m)) = some (Winner.mark m))

/-- `computeAIMove(board, aiMark, playerMark)` from App.js lines 38-65:
win, block, center, random corner, random side, else `-1`.
`rc` and `rs` stand for the two `Math.random()` draws: JS picks
`corners[Math.floor(Math.random()*corners.length)]`, a uniformly random
valid index, modelled as `corners[rc % corners.length]` (and likewise
`rs` for sides). -/
def computeAIMove (board : Board) (aiMark playerMark : Mark) (rc rs : Nat) : Int :=
  match (List.range 9).find? (fun i => winPred board aiMark i) with
  | some i => (i : Int)
  | none =>
    match (List.range 9).find? (fun i => winPred board playerMark i) with
    | some i => (i : Int)
    | none =>
      if cellAt board 4 = none then (4 : Int)
      else
        let corners := [0, 2, 6, 8].filter (fun i => (cellAt board i).isNone)
        if corners.length ≠ 0 then ((corners.getD (rc % corners.length) 0 : Nat) : Int)
        else
          let sides := [1, 3, 5, 7].filter (fun i => (cellAt board i).isNone)
          if sides.length ≠ 0 then ((sides.getD (rs % sides.length) 0 : Nat) : Int)
          else (-1 : Int)

/-- State-threaded rendering of `computeAIMove`: alongside the chosen
index it returns the value bound to `board` when the function returns.
Each simulation writes only into the fresh copy `[...board]`
(here `board.set i (some mark)` built from the unchanged `board`), so
the threaded `board` is returned as the function leaves it. -/
def computeAIMoveS (board : Board) (aiMark playerMark : Mark) (rc rs : Nat) :
    Int × Board :=
  match (List.range 9).find? (fun i => winPred board aiMark i) with
  | some i => ((i : Int), board)
  | none =>
    match (List.range 9).find? (fun i => winPred board playerMark i) with
    | some i => ((i : Int), board)
    | none =>
      if cellAt board 4 = none then ((4 : Int), board)
      else
        let corners := [0, 2, 6, 8].filter (fun i => (cellAt board i).isNone)
        if corners.length ≠ 0 then
          (((corners.getD (rc % corners.length) 0 : Nat) : Int), board)
        else
          let sides := [1, 3, 5, 7].filter (fun i => (cellAt board i).isNone)
          if sides.length ≠ 0 then
            (((sides.getD (rs % sides.length) 0 : Nat) : Int), board)
          else ((-1 : Int), board)

/-- The game mode, JS strings `"pvp"` and `"ai"`. -/
inductive Mode where
  | pvp : Mode
  | ai : Mode
deriving DecidableEq, Repr

/-- `emptyBoard()`: nine `null` cells. -/
def emptyBoard : Board := List.replicate 9 none

/-- `playerMark()` from App.js: always `"X"`. -/
def playerMark : Mark := Mark.X

/-- `aiMark()` from App.js: always `"O"`. -/
def aiMark : Mark := Mark.O

/-- The component state of `App`: `mode`, `board`, `xIsNext`, `aiTurn`,
`status` (where `none` stands for `{winner:null, line:[]}`). -/
structure GameState where
  mode : Mode
  board : Board
  xIsNext : Bool
  aiTurn : Bool
  status : Option WinResult
deriving DecidableEq, Repr

/-- The initial `useState` values: mode `"pvp"`, empty board, X to move,
no AI turn, no winner. -/
def initState : GameState :=
  ⟨Mode.pvp, emptyBoard, true, false, none⟩

/-- `handleClick(i)` from App.js lines 234-244 (the state updates it
performs, without the subsequent board effect): rejected when the game is
won/tied or the cell occupied, and in AI mode also when it is not X's
turn; otherwise sets the cell to the mark of the side to move, toggles
`xIsNext` and clears `aiTurn`. -/
def handleClick (s : GameState) (i : Nat) : GameState :=
  if s.status.isSome || (cellAt s.board i).isSome then s
  else if (s.mode == Mode.pvp) || (s.mode == Mode.ai && s.xIsNext) then
    { s with
      board := s.board.set i (some (if s.xIsNext then Mark.X else Mark.O)),
      xIsNext := !s.xIsNext,
      aiTurn := false }
  else s

/-- The `useEffect` on `[board]` (App.js lines 185-203), run after every
`setBoard`: stores `calculateWinner(board)` as the status; when there is
no result it clears the status and grants the AI the turn exactly when
the mode is `"ai"`, no winner was recorded and it is the AI mark's turn.
Effects run after the batched state updates, so the fields read here are
the post-handler values. -/
def statusEffect (s : GameState) : GameState :=
  match calculateWinner s.board with
  | some r => { s with status := some r }
  | none =>
      { s with
        status := none,
        aiTurn := (s.mode == Mode.ai) && !s.status.isSome &&
          ((s.xIsNext && (aiMark == Mark.X)) || (!s.xIsNext && (aiMark == Mark.O))) }

/-- A human click as one discrete event: `handleClick` followed by the
board effect, which fires exactly when `setBoard` was called (the
rejecting branches call no setter, so nothing runs). -/
def clickStep (s : GameState) (i : Nat) : GameState :=
  if s.status.isSome || (cellAt s.board i).isSome then s
  else if (s.mode == Mode.pvp) || (s.mode == Mode.ai && s.xIsNext) then
    statusEffect
      { s with
        board := s.board.set i (some (if s.xIsNext then Mark.X else Mark.O)),
        xIsNext := !s.xIsNext,
        aiTurn := false }
  else s

/-- The AI-move `useEffect` (App.js lines 206-223) as one discrete event:
when the mode is `"ai"`, `aiTurn` is set and there is no winner, it asks
`computeAIMove` for an index; `-1` means no move, otherwise it writes the
AI mark into a copy of the board, toggles `xIsNext`, and the board effect
follows. -/
def aiStep (s : GameState) (rc rs : Nat) : GameState :=
  if (s.mode == Mode.ai) && s.aiTurn && !s.status.isSome then
    let idx := computeAIMove s.board aiMark playerMark rc rs
    if idx = -1 then s
    else
      statusEffect
        { s with
          board := s.board.set idx.toNat (some aiMark),
          xIsNext := !s.xIsNext }
  else s

/-- `handleRestart()` from App.js lines 270-275 (the state updates it
performs): empty board, X to move, no winner; `setAiFirstMove()` reads the
pre-update `xIsNext`, so `aiTurn` becomes `mode === "ai" && !xIsNext`. -/
def handleRestart (s : GameState) : GameState :=
  { s with
    board := emptyBoard,
    xIsNext := true,
    status := none,
    aiTurn := (s.mode == Mode.ai) && !s.xIsNext }

/-- A restart as one discrete event: `handleRestart` always calls
`setBoard` with a fresh array, so the board effect runs afterwards. -/
def restartStep (s : GameState) : GameState :=
  statusEffect (handleRestart s)

/-- Selecting a mode as one discrete event: the `useEffect` on `[mode]`
(App.js lines 167-173) resets board, turn and status like a restart (its
`setAiFirstMove()` reads the new mode and the pre-update `xIsNext`), and
the board effect runs afterwards. -/
def modeStep (s : GameState) (m : Mode) : GameState :=
  statusEffect
    { mode := m,
      board := emptyBoard,
      xIsNext := true,
      status := none,
      aiTurn := (m == Mode.ai) && !s.xIsNext }

/-- The states reachable from the initial state by clicks on the nine
rendered squares, AI moves, restarts and mode selections. -/
inductive Reachable : GameState → Prop where
  | init : Reachable initState
  | click (s : GameState) (i : Nat) (hs : Reachable s) (hi : i ≤ 8) :
      Reachable (clickStep s i)
  | ai (s : GameState) (rc rs : Nat) (hs : Reachable s) :
      Reachable (aiStep s rc rs)
  | restart (s : GameState) (hs : Reachable s) :
      Reachable (restartStep s)
  | mode (s : GameState) (m : Mode) (hs : Reachable s) :
      Reachable (modeStep s m)

/-- Number of cells of the board holding mark `m`. -/
def countMark (m : Mark) (b : Board) : Nat := b.count (some m)

/-- The spec's notion of a winning triple: all three cells of `l` hold
mark `m`. -/
def isWinningLine (b : Board) (l : Nat × Nat × Nat) (m : Mark) : Prop :=
  cellAt b l.1 = some m ∧ cellAt b l.2.1 = some m ∧ cellAt b l.2.2 = some m

instance (b : Board) (l : Nat × Nat × Nat) (m : Mark) :
    Decidable (isWinningLine b l m) := by
  unfold isWinningLine; infer_instance

/-- The `k`-th triple of the scan order. -/
def lineAt (k : Nat) : Nat × Nat × Nat := winLines.getD k (0, 0, 0)

/-- The state reached in AI mode right after the human placed X on cell 0:
the board has one X, it is O's (the AI's) turn, the game is ongoing. It
equals `clickStep (modeStep initState Mode.ai) 0`. -/
def aiWaitState : GameState :=
  ⟨Mode.ai,
    [some Mark.X, none, none, none, none, none, none, none, none],
    false, true, none⟩

/-- Inductive invariant for the reachable states: nine cells, X leads O
by exactly the turn parity, and a pending AI turn in an ongoing game
implies it is not X's turn. -/
def StateInv (s : GameState) : Prop :=
  s.board.length = 9 ∧
  (s.xIsNext = true → countMark Mark.X s.board = countMark Mark.O s.board) ∧
  (s.xIsNext = false → countMark Mark.X s.board = countMark Mark.O s.board + 1) ∧
  (s.aiTurn = true → s.status = none → s.xIsNext = false)

example : calculateWinner emptyBoard = none := by decide
example :
    calculateWinner [some Mark.X, some Mark.O, some Mark.X,
      some Mark.O, some Mark.X, some Mark.O,
      some Mark.O, some Mark.X, some Mark.O] = some ⟨Winner.tie, []⟩ := by decide
example :
    calculateWinner [some Mark.X, some Mark.X, some Mark.X,
      none, none, none, none, none, none] =
      some ⟨Winner.mark Mark.X, [0, 1, 2]⟩ := by decide
example :
    computeAIMove [some Mark.X, some Mark.X, none,
      some Mark.O, some Mark.O, none, none, none, none] Mark.O Mark.X 0 0 = 5 := by
  decide

/-! ## Basic lemmas about cells, lines and `calculateWinner` -/

lemma cellAt_lt (b : Board) (i : Nat) (h : i < b.length) : cellAt b i = b[i] := by
  simp [cellAt, List.getD_eq_getElem?_getD, List.getElem?_eq_getElem h]

lemma checkLine_eq_some_of (b : Board) (l : Nat × Nat × Nat) (m : Mark)
    (h : isWinningLine b l m) :
    checkLine b l = some ⟨Winner.mark m, [l.1, l.2.1, l.2.2]⟩ := by
  obtain ⟨h1, h2, h3⟩ := h
  unfold checkLine
  rw [h1]
  exact if_pos ⟨h2, h3⟩

lemma checkLine_eq_none_of (b : Board) (l : Nat × Nat × Nat)
    (h : ∀ m, ¬ isWinningLine b l m) :
    checkLine b l = none := by
  unfold checkLine
  cases h1 : cellAt b l.1 with
  | none => rfl
  | some m =>
      dsimp only
      rw [if_neg]
      intro hc
      exact h m ⟨h1, hc.1, hc.2⟩

lemma checkLine_inv (b : Board) (l : Nat × Nat × Nat) (r : WinResult)
    (h : checkLine b l = some r) :
    ∃ m, isWinningLine b l m ∧ r = ⟨Winner.mark m, [l.1, l.2.1, l.2.2]⟩ := by
  unfold checkLine at h
  cases h1 : cellAt b l.1 with
  | none => rw [h1] at h; exact absurd h (by simp)
  | some m =>
      rw [h1] at h
      dsimp only at h
      by_cases hc : cellAt b l.2.1 = some m ∧ cellAt b l.2.2 = some m
      · rw [if_pos hc] at h
        exact ⟨m, ⟨h1, hc.1, hc.2⟩, (Option.some_inj.mp h).symm⟩
      · rw [if_neg hc] at h
        exact absurd h (by simp)

lemma findSome?_first {α β : Type} (f : α → Option β) :
    ∀ (L : List α) (k : Nat) (hk : k < L.length) (r : β),
      (∀ j (hj : j < k), f (L.get ⟨j, Nat.lt_trans hj hk⟩) = none) →
      f (L.get ⟨k, hk⟩) = some r → L.findSome? f = some r := by
  intro L
  induction L with
  | nil => intro k hk; exact absurd hk (by simp)
  | cons a t ih =>
      intro k hk r hnone hsome
      cases k with
      | zero =>
          rw [List.findSome?_cons]
          have : f a = some r := hsome
          rw [this]
      | succ k' =>
          have ha : f a = none := hnone 0 (Nat.succ_pos _)
          rw [List.findSome?_cons, ha]
          exact ih k' (Nat.lt_of_succ_lt_succ hk) r
            (fun j hj => hnone (j + 1) (Nat.succ_lt_succ hj)) hsome

lemma all_isSome_iff (b : Board) (hb : b.length = 9) :
    (b.all (fun sq => sq.isSome) = true) ↔ ∀ i < 9, cellAt b i ≠ none := by
  rw [List.all_eq_true]
  constructor
  · intro h i hi
    have hi' : i < b.length := by omega
    rw [cellAt_lt b i hi']
    have hmem : b[i] ∈ b := List.getElem_mem hi'
    have := h _ hmem
    exact Option.isSome_iff_ne_none.mp this
  · intro h x hx
    obtain ⟨i, hi, rfl⟩ := List.getElem_of_mem hx
    have hi9 : i < 9 := by omega
    have := h i hi9
    rw [cellAt_lt b i hi] at this
    exact Option.isSome_iff_ne_none.mpr this

lemma lineAt_get (j : Nat) (h : j < winLines.length) :
    lineAt j = winLines.get ⟨j, h⟩ := by
  unfold lineAt
  rw [List.getD_eq_getElem?_getD, List.getElem?_eq_getElem h]
  simp [List.get_eq_getElem]

lemma calculateWinner_won_inv (b : Board) (r : WinResult) (m : Mark)
    (hr : calculateWinner b = some r) (hw : r.winner = Winner.mark m) :
    ∃ l ∈ winLines, r = ⟨Winner.mark m, [l.1, l.2.1, l.2.2]⟩ ∧ isWinningLine b l m := by
  unfold calculateWinner at hr
  cases hf : winLines.findSome? (checkLine b) with
  | some r' =>
      rw [hf] at hr
      obtain ⟨l, hl, hcl⟩ := List.exists_of_findSome?_eq_some hf
      obtain ⟨m', hwin, rfl⟩ := checkLine_inv b l r' hcl
      have hrr : r = ⟨Winner.mark m', [l.1, l.2.1, l.2.2]⟩ :=
        (Option.some_inj.mp hr).symm
      subst hrr
      have : m' = m := by
        have := hw
        simp only [Winner.mark.injEq] at this
        exact this
      subst this
      exact ⟨l, hl, rfl, hwin⟩
  | none =>
      rw [hf] at hr
      by_cases hfull : b.all (fun sq => sq.isSome) = true
      · rw [if_pos hfull] at hr
        have hrr : r = ⟨Winner.tie, []⟩ := (Option.some_inj.mp hr).symm
        subst hrr
        exact absurd hw (by simp)
      · rw [if_neg hfull] at hr
        exact absurd hr (by simp)

lemma findSome_none_of_noWin (b : Board)
    (hno : ¬ ∃ l ∈ winLines, ∃ m, isWinningLine b l m) :
    winLines.findSome? (checkLine b) = none := by
  rw [List.findSome?_eq_none_iff]
  intro l hl
  refine checkLine_eq_none_of b l ?_
  intro m hm
  exact hno ⟨l, hl, m, hm⟩

/-- Claim C1: `calculateWinner` reports a mark-winner exactly when one of the 8
fixed triples is monochrome and non-empty (and any reported mark/triple is
such a triple); with no winning triple it reports a tie on a full board
and `null` otherwise. -/
theorem spec_C1 (b : Board) (hb : b.length = 9) :
    ((∃ r, ∃ m, calculateWinner b = some r ∧ r.winner = Winner.mark m) ↔
      ∃ l ∈ winLines, ∃ m, isWinningLine b l m)
    ∧ (∀ r m, calculateWinner b = some r → r.winner = Winner.mark m →
        ∃ l ∈ winLines, r = ⟨Winner.mark m, [l.1, l.2.1, l.2.2]⟩ ∧ isWinningLine b l m)
    ∧ ((¬ ∃ l ∈ winLines, ∃ m, isWinningLine b l m) →
        ((∀ i, i < 9 → cellAt b i ≠ none) →
            calculateWinner b = some ⟨Winner.tie, []⟩)
        ∧ ((∃ i, i < 9 ∧ cellAt b i = none) → calculateWinner b = none)) := by
  refine ⟨⟨?_, ?_⟩, ?_, ?_⟩
  · rintro ⟨r, m, hr, hw⟩
    obtain ⟨l, hl, _, hwin⟩ := calculateWinner_won_inv b r m hr hw
    exact ⟨l, hl, m, hwin⟩
  · rintro ⟨l, hl, m, hwin⟩
    cases hf : winLines.findSome? (checkLine b) with
    | some r' =>
        obtain ⟨l', hl', hcl'⟩ := List.exists_of_findSome?_eq_some hf
        obtain ⟨m', _, rfl⟩ := checkLine_inv b l' r' hcl'
        refine ⟨⟨Winner.mark m', [l'.1, l'.2.1, l'.2.2]⟩, m', ?_, rfl⟩
        unfold calculateWinner
        rw [hf]
    | none =>
        rw [List.findSome?_eq_none_iff] at hf
        have := hf l hl
        rw [checkLine_eq_some_of b l m hwin] at this
        exact absurd this (by simp)
  · exact fun r m hr hw => calculateWinner_won_inv b r m hr hw
  · intro hno
    have hf := findSome_none_of_noWin b hno
    constructor
    · intro hfull
      unfold calculateWinner
      rw [hf, if_pos ((all_isSome_iff b hb).mpr hfull)]
    · rintro ⟨i, hi, hempty⟩
      unfold calculateWinner
      rw [hf, if_neg]
      intro hall
      exact ((all_isSome_iff b hb).mp hall) i hi hempty

/-- Witness for claim C1: on the board `[X,O,X, O,X,O, O,X,O]` (full, no triple),
the no-win branch of C1 yields the tie verdict. -/
theorem spec_C1_witness :
    calculateWinner [some Mark.X, some Mark.O, some Mark.X,
      some Mark.O, some Mark.X, some Mark.O,
      some Mark.O, some Mark.X, some Mark.O] = some ⟨Winner.tie, []⟩ :=
  ((spec_C1 [some Mark.X, some Mark.O, some Mark.X,
      some Mark.O, some Mark.X, some Mark.O,
      some Mark.O, some Mark.X, some Mark.O] (by rfl)).2.2
    (by decide)).1 (by decide)

/-- Claim C9: when a triple wins and every earlier triple in the fixed scan
order (rows, then columns, then diagonals) does not, `calculateWinner`
returns exactly that triple with its mark. -/
theorem spec_C9 (b : Board) (k : Nat) (hk : k < 8) (m : Mark)
    (hw : isWinningLine b (lineAt k) m)
    (hfirst : ∀ j, j < k → ∀ m', ¬ isWinningLine b (lineAt j) m') :
    calculateWinner b =
      some ⟨Winner.mark m, [(lineAt k).1, (lineAt k).2.1, (lineAt k).2.2]⟩ := by
  have hlen : winLines.length = 8 := by rfl
  have hk' : k < winLines.length := by omega
  have hfind : winLines.findSome? (checkLine b) =
      some ⟨Winner.mark m, [(lineAt k).1, (lineAt k).2.1, (lineAt k).2.2]⟩ := by
    refine findSome?_first (checkLine b) winLines k hk' _ ?_ ?_
    · intro j hj
      refine checkLine_eq_none_of b _ ?_
      intro m'
      have := hfirst j hj m'
      rwa [lineAt_get j (Nat.lt_trans hj hk')] at this
    · rw [← lineAt_get k hk']
      exact checkLine_eq_some_of b (lineAt k) m hw
  unfold calculateWinner
  rw [hfind]

/-- Witness for claim C9: on `[X,X,X, X,X,X, _,_,_]` both the first and the second
row win; the scan returns the first row with mark X. -/
theorem spec_C9_witness :
    calculateWinner [some Mark.X, some Mark.X, some Mark.X,
      some Mark.X, some Mark.X, some Mark.X, none, none, none] =
      some ⟨Winner.mark Mark.X, [(lineAt 0).1, (lineAt 0).2.1, (lineAt 0).2.2]⟩ :=
  spec_C9 [some Mark.X, some Mark.X, some Mark.X,
      some Mark.X, some Mark.X, some Mark.X, none, none, none] 0 (by decide)
    Mark.X (by decide) (fun j hj m' => absurd hj (by omega))

/-! ## Lemmas about `computeAIMove` -/

lemma winPred_true_iff (b : Board) (m : Mark) (i : Nat) :
    winPred b m i = true ↔
      (cellAt b i = none ∧ winnerOf (b.set i (some m)) = some (Winner.mark m)) := by
  unfold winPred
  exact decide_eq_true_iff

lemma computeAIMove_eq_of_find_win (b : Board) (am pm : Mark) (rc rs : Nat) (j : Nat)
    (h1 : (List.range 9).find? (fun i => winPred b am i) = some j) :
    computeAIMove b am pm rc rs = (j : Int) := by
  simp only [computeAIMove, h1]

lemma computeAIMove_eq_of_find_block (b : Board) (am pm : Mark) (rc rs : Nat) (j : Nat)
    (h1 : (List.range 9).find? (fun i => winPred b am i) = none)
    (h2 : (List.range 9).find? (fun i => winPred b pm i) = some j) :
    computeAIMove b am pm rc rs = (j : Int) := by
  simp only [computeAIMove, h1, h2]

/-- Claim C2: when some empty cell completes a win for `self`, `computeAIMove`
returns such a cell; when no such cell exists but some empty cell would
complete a win for `opp`, it returns such a blocking cell — both before
any center/corner/side choice. -/
theorem spec_C2 (b : Board) (self opp : Mark) (rc rs : Nat) :
    ((∃ i, i < 9 ∧ winPred b self i = true) →
      ∃ i : Nat, computeAIMove b self opp rc rs = (i : Int) ∧ i < 9 ∧
        cellAt b i = none ∧ winnerOf (b.set i (some self)) = some (Winner.mark self))
    ∧ ((¬ ∃ i, i < 9 ∧ winPred b self i = true) →
        (∃ i, i < 9 ∧ winPred b opp i = true) →
      ∃ i : Nat, computeAIMove b self opp rc rs = (i : Int) ∧ i < 9 ∧
        cellAt b i = none ∧ winnerOf (b.set i (some opp)) = some (Winner.mark opp)) := by
  constructor
  · rintro ⟨i, hi, hp⟩
    cases h1 : (List.range 9).find? (fun i => winPred b self i) with
    | none =>
        rw [List.find?_eq_none] at h1
        exact absurd hp (h1 i (List.mem_range.mpr hi))
    | some j =>
        have hpj := List.find?_some h1
        have hj : j < 9 := List.mem_range.mp (List.mem_of_find?_eq_some h1)
        obtain ⟨hcell, hwin⟩ := (winPred_true_iff b self j).mp hpj
        exact ⟨j, computeAIMove_eq_of_find_win b self opp rc rs j h1, hj, hcell, hwin⟩
  · intro hno
    rintro ⟨i, hi, hp⟩
    have h1 : (List.range 9).find? (fun i => winPred b self i) = none := by
      rw [List.find?_eq_none]
      intro x hx hpx
      exact hno ⟨x, List.mem_range.mp hx, hpx⟩
    cases h2 : (List.range 9).find? (fun i => winPred b opp i) with
    | none =>
        rw [List.find?_eq_none] at h2
        exact absurd hp (h2 i (List.mem_range.mpr hi))
    | some j =>
        have hpj := List.find?_some h2
        have hj : j < 9 := List.mem_range.mp (List.mem_of_find?_eq_some h2)
        obtain ⟨hcell, hwin⟩ := (winPred_true_iff b opp j).mp hpj
        exact ⟨j, computeAIMove_eq_of_find_block b self opp rc rs j h1 h2, hj, hcell, hwin⟩

/-- Witness for claim C2: on `[X,X,_, _,_,_, _,_,_]` with X to move, cell 2 completes
a win, and the returned move is such a winning cell. -/
theorem spec_C2_witness :
    ∃ i : Nat,
      computeAIMove [some Mark.X, some Mark.X, none, none, none, none, none, none, none]
          Mark.X Mark.O 0 0 = (i : Int) ∧ i < 9 ∧
        cellAt [some Mark.X, some Mark.X, none, none, none, none, none, none, none] i = none ∧
        winnerOf
            ([some Mark.X, some Mark.X, none, none, none, none, none, none, none].set i
              (some Mark.X)) =
          some (Winner.mark Mark.X) :=
  (spec_C2 [some Mark.X, some Mark.X, none, none, none, none, none, none, none]
      Mark.X Mark.O 0 0).1 ⟨2, by omega, by decide⟩

lemma getD_mem_of_length_ne_zero {l : List Nat} (r : Nat) (h : l.length ≠ 0) :
    l.getD (r % l.length) 0 ∈ l := by
  have hlt : r % l.length < l.length := Nat.mod_lt _ (Nat.pos_of_ne_zero h)
  rw [List.getD_eq_getElem?_getD, List.getElem?_eq_getElem hlt]
  exact List.getElem_mem hlt

lemma computeAIMove_eq_center (b : Board) (am pm : Mark) (rc rs : Nat)
    (h1 : (List.range 9).find? (fun i => winPred b am i) = none)
    (h2 : (List.range 9).find? (fun i => winPred b pm i) = none)
    (h4 : cellAt b 4 = none) :
    computeAIMove b am pm rc rs = (4 : Int) := by
  simp only [computeAIMove, h1, h2, if_pos h4]

lemma computeAIMove_eq_corner (b : Board) (am pm : Mark) (rc rs : Nat)
    (h1 : (List.range 9).find? (fun i => winPred b am i) = none)
    (h2 : (List.range 9).find? (fun i => winPred b pm i) = none)
    (h4 : ¬ cellAt b 4 = none)
    (hc : ([0, 2, 6, 8].filter (fun i => (cellAt b i).isNone)).length ≠ 0) :
    computeAIMove b am pm rc rs =
      ((([0, 2, 6, 8].filter (fun i => (cellAt b i).isNone)).getD
        (rc % ([0, 2, 6, 8].filter (fun i => (cellAt b i).isNone)).length) 0 : Nat) : Int) := by
  simp only [computeAIMove, h1, h2, if_neg h4, if_pos hc]

lemma computeAIMove_eq_side (b : Board) (am pm : Mark) (rc rs : Nat)
    (h1 : (List.range 9).find? (fun i => winPred b am i) = none)
    (h2 : (List.range 9).find? (fun i => winPred b pm i) = none)
    (h4 : ¬ cellAt b 4 = none)
    (hc : ¬ ([0, 2, 6, 8].filter (fun i => (cellAt b i).isNone)).length ≠ 0)
    (hs : ([1, 3, 5, 7].filter (fun i => (cellAt b i).isNone)).length ≠ 0) :
    computeAIMove b am pm rc rs =
      ((([1, 3, 5, 7].filter (fun i => (cellAt b i).isNone)).getD
        (rs % ([1, 3, 5, 7].filter (fun i => (cellAt b i).isNone)).length) 0 : Nat) : Int) := by
  simp only [computeAIMove, h1, h2, if_neg h4, if_neg hc, if_pos hs]

lemma computeAIMove_eq_neg_one (b : Board) (am pm : Mark) (rc rs : Nat)
    (h1 : (List.range 9).find? (fun i => winPred b am i) = none)
    (h2 : (List.range 9).find? (fun i => winPred b pm i) = none)
    (h4 : ¬ cellAt b 4 = none)
    (hc : ¬ ([0, 2, 6, 8].filter (fun i => (cellAt b i).isNone)).length ≠ 0)
    (hs : ¬ ([1, 3, 5, 7].filter (fun i => (cellAt b i).isNone)).length ≠ 0) :
    computeAIMove b am pm rc rs = -1 := by
  simp only [computeAIMove, h1, h2, if_neg h4, if_neg hc, if_neg hs]

lemma computeAIMove_mem (b : Board) (am pm : Mark) (rc rs : Nat)
    (h : computeAIMove b am pm rc rs ≠ -1) :
    ∃ i : Nat, computeAIMove b am pm rc rs = (i : Int) ∧ i ≤ 8 ∧ cellAt b i = none := by
  cases h1 : (List.range 9).find? (fun i => winPred b am i) with
  | some j =>
      have hpj := List.find?_some h1
      have hj : j < 9 := List.mem_range.mp (List.mem_of_find?_eq_some h1)
      exact ⟨j, computeAIMove_eq_of_find_win b am pm rc rs j h1, by omega,
        ((winPred_true_iff b am j).mp hpj).1⟩
  | none =>
  cases h2 : (List.range 9).find? (fun i => winPred b pm i) with
  | some j =>
      have hpj := List.find?_some h2
      have hj : j < 9 := List.mem_range.mp (List.mem_of_find?_eq_some h2)
      exact ⟨j, computeAIMove_eq_of_find_block b am pm rc rs j h1 h2, by omega,
        ((winPred_true_iff b pm j).mp hpj).1⟩
  | none =>
  by_cases h4 : cellAt b 4 = none
  · exact ⟨4, computeAIMove_eq_center b am pm rc rs h1 h2 h4, by omega, h4⟩
  · by_cases hc : ([0, 2, 6, 8].filter (fun i => (cellAt b i).isNone)).length ≠ 0
    · have hmem := getD_mem_of_length_ne_zero
        (l := [0, 2, 6, 8].filter (fun i => (cellAt b i).isNone)) rc hc
      rw [List.mem_filter] at hmem
      obtain ⟨hmemlist, hisnone⟩ := hmem
      have hle : ([0, 2, 6, 8].filter (fun i => (cellAt b i).isNone)).getD
          (rc % ([0, 2, 6, 8].filter (fun i => (cellAt b i).isNone)).length) 0 ≤ 8 := by
        simp only [List.mem_cons, List.not_mem_nil, or_false] at hmemlist
        rcases hmemlist with h | h | h | h <;> omega
      exact ⟨_, computeAIMove_eq_corner b am pm rc rs h1 h2 h4 hc, hle,
        Option.isNone_iff_eq_none.mp hisnone⟩
    · by_cases hs : ([1, 3, 5, 7].filter (fun i => (cellAt b i).isNone)).length ≠ 0
      · have hmem := getD_mem_of_length_ne_zero
          (l := [1, 3, 5, 7].filter (fun i => (cellAt b i).isNone)) rs hs
        rw [List.mem_filter] at hmem
        obtain ⟨hmemlist, hisnone⟩ := hmem
        have hle : ([1, 3, 5, 7].filter (fun i => (cellAt b i).isNone)).getD
            (rs % ([1, 3, 5, 7].filter (fun i => (cellAt b i).isNone)).length) 0 ≤ 8 := by
          simp only [List.mem_cons, List.not_mem_nil, or_false] at hmemlist
          rcases hmemlist with h | h | h | h <;> omega
        exact ⟨_, computeAIMove_eq_side b am pm rc rs h1 h2 h4 hc hs, hle,
          Option.isNone_iff_eq_none.mp hisnone⟩
      · exact absurd (computeAIMove_eq_neg_one b am pm rc rs h1 h2 h4 hc hs) h

/-- Claim C10: whenever `computeAIMove` returns a value other than `-1`, that
value is an index in `0..8` whose cell on the input board is empty. -/
theorem spec_C10 (b : Board) (am pm : Mark) (rc rs : Nat)
    (h : computeAIMove b am pm rc rs ≠ -1) :
    ∃ i : Nat, computeAIMove b am pm rc rs = (i : Int) ∧ i ≤ 8 ∧ cellAt b i = none :=
  computeAIMove_mem b am pm rc rs h

/-- Witness for claim C10: on the empty board the move is not `-1` and lands on an
empty in-range cell (it is the center, index 4). -/
theorem spec_C10_witness :
    computeAIMove emptyBoard Mark.O Mark.X 0 0 ≠ -1 ∧
      ∃ i : Nat, computeAIMove emptyBoard Mark.O Mark.X 0 0 = (i : Int) ∧ i ≤ 8 ∧
        cellAt emptyBoard i = none :=
  ⟨by decide, spec_C10 emptyBoard Mark.O Mark.X 0 0 (by decide)⟩

lemma computeAIMove_full (b : Board) (am pm : Mark) (rc rs : Nat)
    (hfull : ∀ i, i < 9 → cellAt b i ≠ none) :
    computeAIMove b am pm rc rs = -1 := by
  have h1 : (List.range 9).find? (fun i => winPred b am i) = none := by
    rw [List.find?_eq_none]
    intro i hi hp
    exact hfull i (List.mem_range.mp hi) ((winPred_true_iff b am i).mp hp).1
  have h2 : (List.range 9).find? (fun i => winPred b pm i) = none := by
    rw [List.find?_eq_none]
    intro i hi hp
    exact hfull i (List.mem_range.mp hi) ((winPred_true_iff b pm i).mp hp).1
  have h4 : ¬ cellAt b 4 = none := hfull 4 (by omega)
  have hc : ([0, 2, 6, 8].filter (fun i => (cellAt b i).isNone)).length = 0 := by
    rw [List.length_eq_zero, List.filter_eq_nil_iff]
    intro a ha
    simp only [List.mem_cons, List.not_mem_nil, or_false] at ha
    rw [Bool.not_eq_true, Option.isNone_eq_false_iff, Option.isSome_iff_ne_none]
    rcases ha with rfl | rfl | rfl | rfl
    · exact hfull 0 (by omega)
    · exact hfull 2 (by omega)
    · exact hfull 6 (by omega)
    · exact hfull 8 (by omega)
  have hs : ([1, 3, 5, 7].filter (fun i => (cellAt b i).isNone)).length = 0 := by
    rw [List.length_eq_zero, List.filter_eq_nil_iff]
    intro a ha
    simp only [List.mem_cons, List.not_mem_nil, or_false] at ha
    rw [Bool.not_eq_true, Option.isNone_eq_false_iff, Option.isSome_iff_ne_none]
    rcases ha with rfl | rfl | rfl | rfl
    · exact hfull 1 (by omega)
    · exact hfull 3 (by omega)
    · exact hfull 5 (by omega)
    · exact hfull 7 (by omega)
  exact computeAIMove_eq_neg_one b am pm rc rs h1 h2 h4
    (by omega) (by omega)

lemma computeAIMove_notfull (b : Board) (am pm : Mark) (rc rs : Nat) (i : Nat)
    (hi : i < 9) (hempty : cellAt b i = none) :
    computeAIMove b am pm rc rs ≠ -1 := by
  cases h1 : (List.range 9).find? (fun i => winPred b am i) with
  | some j =>
      rw [computeAIMove_eq_of_find_win b am pm rc rs j h1]
      omega
  | none =>
  cases h2 : (List.range 9).find? (fun i => winPred b pm i) with
  | some j =>
      rw [computeAIMove_eq_of_find_block b am pm rc rs j h1 h2]
      omega
  | none =>
  by_cases h4 : cellAt b 4 = none
  · rw [computeAIMove_eq_center b am pm rc rs h1 h2 h4]
    omega
  · have hi4 : i ≠ 4 := fun hh => h4 (hh ▸ hempty)
    by_cases hc : ([0, 2, 6, 8].filter (fun i => (cellAt b i).isNone)).length ≠ 0
    · rw [computeAIMove_eq_corner b am pm rc rs h1 h2 h4 hc]
      omega
    · have hmem : i ∈ [1, 3, 5, 7] := by
        have hnc : ¬ i ∈ [0, 2, 6, 8] := by
          intro hin
          have : i ∈ [0, 2, 6, 8].filter (fun i => (cellAt b i).isNone) :=
            List.mem_filter.mpr ⟨hin, by rw [hempty]; rfl⟩
          rcases List.length_eq_zero.mp (by omega :
            ([0, 2, 6, 8].filter (fun i => (cellAt b i).isNone)).length = 0) with hnil
          rw [hnil] at this
          exact absurd this (List.not_mem_nil _)
        interval_cases i <;> simp_all
      have hs : ([1, 3, 5, 7].filter (fun i => (cellAt b i).isNone)).length ≠ 0 := by
        intro h0
        have : i ∈ [1, 3, 5, 7].filter (fun i => (cellAt b i).isNone) :=
          List.mem_filter.mpr ⟨hmem, by rw [hempty]; rfl⟩
        rw [List.length_eq_zero.mp h0] at this
        exact absurd this (List.not_mem_nil _)
      rw [computeAIMove_eq_side b am pm rc rs h1 h2 h4 hc hs]
      omega

/-- Claim C5: `computeAIMove` returns `-1` exactly when the board is
full, and on a board with an empty cell it returns an in-range empty cell
index (never `-1`). -/
theorem spec_C5 (b : Board) (_hb : b.length = 9) (am pm : Mark) (rc rs : Nat) :
    (computeAIMove b am pm rc rs = -1 ↔ ∀ i, i < 9 → cellAt b i ≠ none)
    ∧ ((∃ i, i < 9 ∧ cellAt b i = none) →
        ∃ j : Nat, computeAIMove b am pm rc rs = (j : Int) ∧ j ≤ 8 ∧ cellAt b j = none) := by
  constructor
  · constructor
    · intro heq i hi hempty
      exact computeAIMove_notfull b am pm rc rs i hi hempty heq
    · exact computeAIMove_full b am pm rc rs
  · rintro ⟨i, hi, hempty⟩
    exact computeAIMove_mem b am pm rc rs
      (computeAIMove_notfull b am pm rc rs i hi hempty)

/-- Witness for claim C5: the empty board has an empty cell, so the move
is an in-range empty cell (and, per the iff, it is not `-1`). -/
theorem spec_C5_witness :
    ∃ j : Nat, computeAIMove emptyBoard Mark.O Mark.X 0 0 = (j : Int) ∧ j ≤ 8 ∧
      cellAt emptyBoard j = none :=
  (spec_C5 emptyBoard (by rfl) Mark.O Mark.X 0 0).2 ⟨0, by omega, by decide⟩

/-- Claim C3: on `[X,X,_, O,O,_, _,_,_]` with the AI playing O against X, the
returned move is index 5 — for every random draw, since the win/block
scans fire before any random choice. -/
theorem spec_C3 (rc rs : Nat) :
    computeAIMove [some Mark.X, some Mark.X, none, some Mark.O, some Mark.O, none,
      none, none, none] Mark.O Mark.X rc rs = 5 := by
  have h1 : (List.range 9).find?
      (fun i => winPred [some Mark.X, some Mark.X, none, some Mark.O, some Mark.O, none,
        none, none, none] Mark.O i) = some 5 := by decide
  rw [computeAIMove_eq_of_find_win _ _ _ _ _ 5 h1]
  rfl

/-- Claim C6: the pair-returning rendering of `computeAIMove` hands back the
input board unchanged (the simulations only ever write into the fresh
copy), and its chosen index is exactly `computeAIMove`'s. -/
theorem spec_C6 (b : Board) (am pm : Mark) (rc rs : Nat) :
    (computeAIMoveS b am pm rc rs).2 = b ∧
      (computeAIMoveS b am pm rc rs).1 = computeAIMove b am pm rc rs := by
  cases h1 : (List.range 9).find? (fun i => winPred b am i) with
  | some j =>
      exact ⟨by simp only [computeAIMoveS, h1],
        by simp only [computeAIMoveS, computeAIMove, h1]⟩
  | none =>
  cases h2 : (List.range 9).find? (fun i => winPred b pm i) with
  | some j =>
      exact ⟨by simp only [computeAIMoveS, h1, h2],
        by simp only [computeAIMoveS, computeAIMove, h1, h2]⟩
  | none =>
  by_cases h4 : cellAt b 4 = none
  · exact ⟨by simp only [computeAIMoveS, h1, h2, if_pos h4],
      by simp only [computeAIMoveS, computeAIMove, h1, h2, if_pos h4]⟩
  · by_cases hc : ([0, 2, 6, 8].filter (fun i => (cellAt b i).isNone)).length ≠ 0
    · exact ⟨by simp only [computeAIMoveS, h1, h2, if_neg h4, if_pos hc],
        by simp only [computeAIMoveS, computeAIMove, h1, h2, if_neg h4, if_pos hc]⟩
    · by_cases hs : ([1, 3, 5, 7].filter (fun i => (cellAt b i).isNone)).length ≠ 0
      · exact ⟨by simp only [computeAIMoveS, h1, h2, if_neg h4, if_neg hc, if_pos hs],
          by simp only [computeAIMoveS, computeAIMove, h1, h2, if_neg h4, if_neg hc,
            if_pos hs]⟩
      · exact ⟨by simp only [computeAIMoveS, h1, h2, if_neg h4, if_neg hc, if_neg hs],
          by simp only [computeAIMoveS, computeAIMove, h1, h2, if_neg h4, if_neg hc,
            if_neg hs]⟩

/-! ## The controller: clicks, restart, and the reachable-state invariant -/

lemma cellAt_emptyBoard (i : Nat) : cellAt emptyBoard i = none := by
  simp only [cellAt, emptyBoard, List.getD_eq_getElem?_getD, List.getElem?_replicate]
  split <;> rfl

lemma countMark_emptyBoard (m : Mark) : countMark m emptyBoard = 0 := by
  simp [countMark, emptyBoard, List.count_replicate]

lemma countMark_set (b : Board) (i : Nat) (m m' : Mark) (hi : i < b.length)
    (h : cellAt b i = none) :
    countMark m' (b.set i (some m)) =
      countMark m' b + (if m = m' then 1 else 0) := by
  unfold countMark
  rw [List.count_set (some m) (some m') b i hi]
  have hbi : b[i] = none := by rw [← cellAt_lt b i hi]; exact h
  rw [hbi]
  simp [beq_iff_eq]

lemma statusEffect_board (s : GameState) : (statusEffect s).board = s.board := by
  unfold statusEffect
  split <;> rfl

lemma statusEffect_xIsNext (s : GameState) :
    (statusEffect s).xIsNext = s.xIsNext := by
  unfold statusEffect
  split <;> rfl

lemma statusEffect_aiTurn_inv (s : GameState) :
    (statusEffect s).aiTurn = true → (statusEffect s).status = none →
      (statusEffect s).xIsNext = false := by
  unfold statusEffect
  split
  · intro _ hst
    exact absurd hst (by simp)
  · intro hai _
    simp only [aiMark] at hai
    simp only [Bool.and_eq_true, Bool.or_eq_true] at hai
    rcases hai.2 with ⟨_, hfalse⟩ | ⟨hnx, _⟩
    · exact absurd hfalse (by decide)
    · simpa using hnx

/-- Claim C7: `handleRestart` resets the board to nine empty cells, the turn to
the fixed starting mark X (`xIsNext = true`), and the verdict to Ongoing
(no winner, empty winning line, `calculateWinner` finds nothing). -/
theorem spec_C7 (s : GameState) :
    (handleRestart s).board = emptyBoard ∧
    (∀ i, cellAt (handleRestart s).board i = none) ∧
    (handleRestart s).xIsNext = true ∧
    (handleRestart s).status = none ∧
    calculateWinner (handleRestart s).board = none := by
  refine ⟨rfl, ?_, rfl, rfl, ?_⟩
  · intro i
    exact cellAt_emptyBoard i
  · show calculateWinner emptyBoard = none
    decide

/-- Counterexample to claim C4 as stated: in the reachable AI-mode state where the human
just played X on cell 0, the game is ongoing, cell 1 is empty, and yet
`handleClick` on cell 1 is a no-op (it is not X's turn) instead of
setting the cell to the moving mark. -/
theorem spec_C4_counterexample :
    Reachable aiWaitState ∧
    aiWaitState.status = none ∧
    cellAt aiWaitState.board 1 = none ∧
    handleClick aiWaitState 1 = aiWaitState ∧
    (handleClick aiWaitState 1).board ≠
      aiWaitState.board.set 1
        (some (if aiWaitState.xIsNext then Mark.X else Mark.O)) := by
  refine ⟨?_, by decide, by decide, by decide, by decide⟩
  have h : clickStep (modeStep initState Mode.ai) 0 = aiWaitState := by decide
  rw [← h]
  exact Reachable.click _ 0 (Reachable.mode _ Mode.ai Reachable.init) (by omega)

/-- Claim C4, amended: a click with a terminal verdict or an occupied target
cell is a silent no-op (state unchanged), and in AI mode a click when it
is not X's turn is also a no-op; in the remaining cases (PvP, or AI mode
on X's turn) the click sets exactly the clicked cell to the moving mark
and toggles the turn owner. -/
theorem spec_C4 (s : GameState) (i : Nat) :
    ((s.status.isSome = true ∨ (cellAt s.board i).isSome = true) →
      handleClick s i = s)
    ∧ (s.mode = Mode.ai → s.xIsNext = false → handleClick s i = s)
    ∧ (s.status = none → cellAt s.board i = none →
        (s.mode = Mode.pvp ∨ (s.mode = Mode.ai ∧ s.xIsNext = true)) →
        (handleClick s i).board =
          s.board.set i (some (if s.xIsNext then Mark.X else Mark.O)) ∧
        (handleClick s i).xIsNext = (!s.xIsNext)) := by
  refine ⟨?_, ?_, ?_⟩
  · intro h
    unfold handleClick
    rw [if_pos (by rcases h with h | h <;> simp [h])]
  · intro hm hx
    unfold handleClick
    by_cases hg : (s.status.isSome || (cellAt s.board i).isSome) = true
    · rw [if_pos hg]
    · rw [if_neg hg, if_neg]
      simp [hm, hx]
  · intro hst hcell hmode
    unfold handleClick
    have hcond : ((s.mode == Mode.pvp) || (s.mode == Mode.ai && s.xIsNext)) = true := by
      rcases hmode with h | ⟨h1, h2⟩
      · simp [h]
      · simp [h1, h2]
    rw [if_neg (by simp [hst, hcell]), if_pos hcond]
    exact ⟨rfl, rfl⟩

/-- Witness for claim C4: in the initial state a click on the empty cell 0 sets it
to X and passes the turn to O. -/
theorem spec_C4_witness :
    (handleClick initState 0).board =
      initState.board.set 0 (some (if initState.xIsNext then Mark.X else Mark.O)) ∧
    (handleClick initState 0).xIsNext = (!initState.xIsNext) :=
  (spec_C4 initState 0).2.2 rfl (by decide) (Or.inl rfl)

lemma inv_statusEffect (s : GameState) (h9 : s.board.length = 9)
    (hX : s.xIsNext = true → countMark Mark.X s.board = countMark Mark.O s.board)
    (hO : s.xIsNext = false → countMark Mark.X s.board = countMark Mark.O s.board + 1) :
    StateInv (statusEffect s) := by
  refine ⟨?_, ?_, ?_, statusEffect_aiTurn_inv s⟩
  · rw [statusEffect_board]; exact h9
  · rw [statusEffect_xIsNext, statusEffect_board]; exact hX
  · rw [statusEffect_xIsNext, statusEffect_board]; exact hO

lemma inv_clickStep (s : GameState) (i : Nat) (hi : i ≤ 8) (h : StateInv s) :
    StateInv (clickStep s i) := by
  obtain ⟨h9, hX, hO, hAI⟩ := h
  unfold clickStep
  by_cases hg1 : (s.status.isSome || (cellAt s.board i).isSome) = true
  · rw [if_pos hg1]; exact ⟨h9, hX, hO, hAI⟩
  · rw [if_neg hg1]
    by_cases hg2 : ((s.mode == Mode.pvp) || (s.mode == Mode.ai && s.xIsNext)) = true
    · rw [if_pos hg2]
      have hcell : cellAt s.board i = none := by
        rcases Bool.or_eq_false_iff.mp (Bool.not_eq_true _ |>.mp hg1) with ⟨_, hc⟩
        exact Option.not_isSome_iff_eq_none.mp (by rw [hc]; exact Bool.false_ne_true)
      have hlt : i < s.board.length := by omega
      cases hx : s.xIsNext with
      | true =>
          refine inv_statusEffect _ ?_ ?_ ?_ <;> dsimp only
          · rw [List.length_set]; exact h9
          · intro hcontra
            exact absurd hcontra (by decide)
          · intro _
            rw [show (if (true : Bool) then Mark.X else Mark.O) = Mark.X from rfl]
            rw [countMark_set s.board i Mark.X Mark.X hlt hcell,
              countMark_set s.board i Mark.X Mark.O hlt hcell, hX hx]
            simp
      | false =>
          refine inv_statusEffect _ ?_ ?_ ?_ <;> dsimp only
          · rw [List.length_set]; exact h9
          · intro _
            rw [show (if (false : Bool) then Mark.X else Mark.O) = Mark.O from rfl]
            rw [countMark_set s.board i Mark.O Mark.X hlt hcell,
              countMark_set s.board i Mark.O Mark.O hlt hcell, hO hx]
            simp
          · intro hcontra
            exact absurd hcontra (by decide)
    · rw [if_neg hg2]; exact ⟨h9, hX, hO, hAI⟩

lemma inv_aiStep (s : GameState) (rc rs : Nat) (h : StateInv s) :
    StateInv (aiStep s rc rs) := by
  obtain ⟨h9, hX, hO, hAI⟩ := h
  unfold aiStep
  by_cases hg : ((s.mode == Mode.ai) && s.aiTurn && !s.status.isSome) = true
  · rw [if_pos hg]
    simp only [Bool.and_eq_true] at hg
    obtain ⟨⟨_, hat⟩, hns⟩ := hg
    have hst : s.status = none := Option.not_isSome_iff_eq_none.mp (by simpa using hns)
    have hxf : s.xIsNext = false := hAI hat hst
    show StateInv
      (if computeAIMove s.board aiMark playerMark rc rs = -1 then s
       else statusEffect
        { s with
          board := s.board.set (computeAIMove s.board aiMark playerMark rc rs).toNat
            (some aiMark),
          xIsNext := !s.xIsNext })
    by_cases hneg : computeAIMove s.board aiMark playerMark rc rs = -1
    · rw [if_pos hneg]; exact ⟨h9, hX, hO, hAI⟩
    · rw [if_neg hneg]
      obtain ⟨j, hjeq, hj8, hjcell⟩ := computeAIMove_mem s.board aiMark playerMark rc rs hneg
      rw [hjeq, Int.toNat_natCast]
      have hlt : j < s.board.length := by omega
      refine inv_statusEffect _ ?_ ?_ ?_ <;> dsimp only
      · rw [List.length_set]; exact h9
      · intro _
        rw [show aiMark = Mark.O from rfl]
        rw [countMark_set s.board j Mark.O Mark.X hlt hjcell,
          countMark_set s.board j Mark.O Mark.O hlt hjcell, hO hxf]
        simp
      · intro hcontra
        rw [hxf] at hcontra
        exact absurd hcontra (by decide)
  · rw [if_neg hg]; exact ⟨h9, hX, hO, hAI⟩

lemma inv_restartStep (s : GameState) : StateInv (restartStep s) := by
  unfold restartStep handleRestart
  refine inv_statusEffect _ ?_ ?_ ?_ <;> dsimp only
  · rfl
  · intro _
    rw [countMark_emptyBoard, countMark_emptyBoard]
  · intro hcontra
    exact absurd hcontra (by decide)

lemma inv_modeStep (s : GameState) (m : Mode) : StateInv (modeStep s m) := by
  unfold modeStep
  refine inv_statusEffect _ ?_ ?_ ?_ <;> dsimp only
  · rfl
  · intro _
    rw [countMark_emptyBoard, countMark_emptyBoard]
  · intro hcontra
    exact absurd hcontra (by decide)

lemma reachable_inv (s : GameState) (h : Reachable s) : StateInv s := by
  induction h with
  | init =>
      unfold StateInv
      refine ⟨rfl, fun _ => rfl, fun hc => absurd hc (by decide),
        fun hc _ => absurd hc (by decide)⟩
  | click s i hs hi ih => exact inv_clickStep s i hi ih
  | ai s rc rs hs ih => exact inv_aiStep s rc rs ih
  | restart s hs ih => exact inv_restartStep s
  | mode s m hs ih => exact inv_modeStep s m

/-- Claim C8: in every state reachable from the initial state by clicks, AI
moves, restarts and mode changes, the counts of X and O on the board
differ by at most one. -/
theorem spec_C8 (s : GameState) (h : Reachable s) :
    countMark Mark.X s.board ≤ countMark Mark.O s.board + 1 ∧
      countMark Mark.O s.board ≤ countMark Mark.X s.board + 1 := by
  obtain ⟨h9, hX, hO, _⟩ := reachable_inv s h
  cases hx : s.xIsNext with
  | true => have := hX hx; omega
  | false => have := hO hx; omega

/-- Witness for claim C8: the initial state is reachable and its counts (0 and 0)
differ by at most one. -/
theorem spec_C8_witness :
    countMark Mark.X initState.board ≤ countMark Mark.O initState.board + 1 ∧
      countMark Mark.O initState.board ≤ countMark Mark.X initState.board + 1 :=
  spec_C8 initState Reachable.init
